import Mathlib

/-! Shallow embedding of the cachette in-process cache (src/src/memoizer.ts):
    the `Cache` engine (get/add/pop/has/prune over an insertion-ordered
    key-to-entry map) and the function-memoization wrapper built on it.
    The JavaScript `Map` is modelled as an association list in insertion
    order; `Date.now()` is passed explicitly as an integer `now` parameter;
    JavaScript truthiness of the values involved is modelled by `Val.truthy`;
    a promise rejection is an `Except` error. -/

deriving instance DecidableEq for Except

namespace Cachette

/-- JS primitive cache payloads: strings and (integer) numbers. -/
inductive Prim where
  | str (s : String)
  | num (n : Int)
deriving DecidableEq, Repr

/-- A structured-object payload's shape: a flat record of primitive fields. -/
abbrev Shape := List (String × Prim)

/-- A JS value usable as a cache value: a primitive, or an object carrying a
    reference identity `ref` and a structural `shape` (two objects are the
    same JS object iff their `ref`s agree). -/
inductive Val where
  | prim (p : Prim)
  | obj (ref : Nat) (shape : Shape)
deriving DecidableEq, Repr

/-- A JS value usable as a cache key (objects compared by reference). -/
inductive KeyV where
  | str (s : String)
  | num (n : Int)
  | obj (ref : Nat)
deriving DecidableEq, Repr

/-- JS truthiness of a `Val`: the empty string and `0` are falsy, every
    object is truthy. -/
def Val.truthy : Val → Bool
  | .prim (.str s) => !(s.length == 0)
  | .prim (.num n) => !(n == 0)
  | .obj _ _ => true

/-- JS `key.toString()`. -/
def keyToString : KeyV → String
  | .str s => s
  | .num n => toString n
  | .obj _ => "[object Object]"

/-- `JSON.stringify` of a primitive (string escaping not modelled). -/
def Prim.json : Prim → String
  | .str s => "\"" ++ s ++ "\""
  | .num n => toString n

/-- `JSON.stringify` of an object shape. -/
def jsonOfShape (sh : Shape) : String :=
  "\x7b" ++ String.intercalate "," (sh.map (fun f => "\"" ++ f.1 ++ "\":" ++ f.2.json)) ++ "\x7d"

/-- `JSON.stringify` of a value: used by the memoizer to derive keys and by
    the `stringify` storage mode of `add`. -/
def stringifyVal : Val → String
  | .prim p => p.json
  | .obj _ sh => jsonOfShape sh

/-- One stored cache entry (the source's `CacheObject`). -/
structure CObj where
  key : KeyV
  value : Val
  timestamp : Int
deriving DecidableEq, Repr

/-- The JS `Map<Key, CacheObject>`, in insertion order. -/
abbrev Store := List (KeyV × CObj)

/-- `Map.get`: the (unique) entry stored under the given key. -/
def mapGet : Store → KeyV → Option CObj
  | [], _ => none
  | e :: rest, k => if e.1 = k then some e.2 else mapGet rest k

/-- `Map.has`. -/
def mapHas (s : Store) (k : KeyV) : Bool := (mapGet s k).isSome

/-- `Map.set`: replace in place if the key exists (insertion position is
    preserved), otherwise append at the end. -/
def mapSet : Store → KeyV → CObj → Store
  | [], k, o => [(k, o)]
  | e :: rest, k, o => if e.1 = k then (k, o) :: rest else e :: mapSet rest k o

/-- `Map.delete`: remove the (unique) entry stored under the given key. -/
def mapDelete : Store → KeyV → Store
  | [], _ => []
  | e :: rest, k => if e.1 = k then rest else e :: mapDelete rest k

/-- The `lifetime` constructor option object. -/
structure Lifetime where
  duration : Option Int := none
  frequency : Option Int := none
deriving DecidableEq, Repr

/-- Storage modes for structured-object values. -/
inductive AddObjectAs where
  | clone
  | stringify
  | byReference
deriving DecidableEq, Repr

/-- Constructor-level options; an absent boolean option is JS-falsy, which
    `false` models. -/
structure CacheOptions where
  limit : Option Nat := none
  duplicateAddThrows : Bool := false
  throwOnEmpty : Bool := false
  addObjectsAs : Option AddObjectAs := none
  lifetime : Option Lifetime := none
deriving DecidableEq, Repr

/-- Per-call options of `add`. -/
structure AddOptions where
  addObjectAs : Option AddObjectAs := none
  throwOnExist : Option Bool := none
deriving DecidableEq, Repr

/-- Engine state: the fixed options, the ordered store, and a fresh-reference
    allocator modelling that `cloneDeep` produces a new object identity. -/
structure CacheState where
  options : CacheOptions
  store : Store
  nextRef : Nat
deriving DecidableEq, Repr

/-- The rejection channel. `fault` is the `TypeError` thrown by destructuring
    `Array.from(this.map)[0]` when the map is empty. -/
inductive CacheErr where
  | emptyKey
  | emptyValue
  | duplicateKey
  | notFound
  | fault
deriving DecidableEq, Repr

/-- `Cache.get` (source lines 308–323): the effective throw flag is the
    disjunction `this.options.throwOnEmpty || throwOnEmpty`; a present
    entry's value is read back through `entry?.value || undefined`, so a
    falsy stored value comes back as `undefined` (`none`). No expiry check
    is performed. -/
def Cache.get (st : CacheState) (k : KeyV) (throwOnEmpty : Option Bool) :
    Except CacheErr (Option Val) :=
  if (st.options.throwOnEmpty || throwOnEmpty.getD false) && !(mapHas st.store k) then
    .error .notFound
  else
    match mapGet st.store k with
    | some obj => .ok (if obj.value.truthy then some obj.value else none)
    | none => .ok none

/-- The insertion tail of `add` (source lines 373–390): build the
    `CacheObject` with `timestamp = Date.now()`, transform a structured
    object value per the resolved storage mode (a `cloneDeep` allocates a
    fresh reference), then `map.set`. -/
def doInsert (st : CacheState) (k : KeyV) (v : Val) (addAs : AddObjectAs) (now : Int) :
    CacheState :=
  match v with
  | .obj _ sh =>
    match addAs with
    | .clone =>
        { st with store := mapSet st.store k ⟨k, .obj st.nextRef sh, now⟩,
                  nextRef := st.nextRef + 1 }
    | .stringify =>
        { st with store := mapSet st.store k ⟨k, .prim (.str (jsonOfShape sh)), now⟩ }
    | .byReference =>
        { st with store := mapSet st.store k ⟨k, v, now⟩ }
  | .prim _ => { st with store := mapSet st.store k ⟨k, v, now⟩ }

/-- `Cache.add` (source lines 337–392). The duplicate-key rejection in the
    source does not return early, so eviction and insertion still run (the
    promise, already rejected, reports `duplicateKey` while the store is
    mutated). Eviction fires whenever `limit === map.size`, before the
    insertion; on an empty store the `Array.from(this.map)[0]` destructuring
    then throws (`fault`) before any mutation. The second
    `key.toString().length` test mirrors the source's value check, which
    re-tests the key rather than the value. -/
def Cache.add (st : CacheState) (now : Int) (key : Option KeyV) (value : Option Val)
    (ao : AddOptions) : Except CacheErr Unit × CacheState :=
  let addAs := ao.addObjectAs.getD (st.options.addObjectsAs.getD .byReference)
  let throwIfKeyExists := ao.throwOnExist.getD false || st.options.duplicateAddThrows
  match key with
  | none => (.error .emptyKey, st)
  | some k =>
    if (keyToString k).length == 0 then (.error .emptyKey, st)
    else
      match value with
      | none => (.error .emptyValue, st)
      | some v =>
        if (keyToString k).length == 0 then (.error .emptyValue, st)
        else
          let dup := throwIfKeyExists && mapHas st.store k
          if st.options.limit = some st.store.length then
            match st.store with
            | [] => ((if dup then .error .duplicateKey else .error .fault), st)
            | e :: _ =>
              ((if dup then .error .duplicateKey else .ok ()),
                doInsert { st with store := mapDelete st.store e.1 } k v addAs now)
          else
            ((if dup then .error .duplicateKey else .ok ()), doInsert st k v addAs now)

/-- The source's empty-key test of `add`: `key === undefined || key === null
    || key.toString().length === 0`. -/
def emptyKeyCheck : Option KeyV → Bool
  | none => true
  | some k => (keyToString k).length == 0

/-- `Cache.pop` (source lines 413–429): an absent key rejects (with a plain
    string, modelled `notFound`) iff `throwOnEmpty || this.options.throwOnEmpty`,
    else resolves `undefined`; a present key is read through `this.get` and
    then deleted. The error arm of the match is unreachable for a present
    key (`get` cannot reject then). -/
def Cache.pop (st : CacheState) (k : KeyV) (throwOnEmpty : Option Bool) :
    Except CacheErr (Option Val) × CacheState :=
  if !(mapHas st.store k) then
    if throwOnEmpty.getD false || st.options.throwOnEmpty then (.error .notFound, st)
    else (.ok none, st)
  else
    match Cache.get st k throwOnEmpty with
    | .ok v => (.ok v, { st with store := mapDelete st.store k })
    | .error e => (.error e, st)

/-- `Cache.has` (source lines 437–441): `map.has`, with no expiry check. -/
def Cache.has (st : CacheState) (k : KeyV) : Bool := mapHas st.store k

/-- The body of `prune`'s `for (let i = 0; i < this.map.size; i++)` loop
    (source lines 289–297): `scan` is the tail of the `Array.from(this.map)`
    snapshot still to visit, `i` the loop index (always the snapshot
    position of `scan`'s head), `s` the live map. The bound `i < s.length`
    re-reads the live `map.size`, which shrinks as entries are deleted. -/
def pruneLoopAux (cutoff : Int) : List (KeyV × CObj) → Nat → Store → Store
  | [], _, s => s
  | e :: rest, i, s =>
    if i < s.length then
      pruneLoopAux cutoff rest (i + 1) (if e.2.timestamp < cutoff then mapDelete s e.1 else s)
    else s

/-- `Cache.prune` (source lines 277–300): a no-op unless a truthy
    engine-level `lifetime.duration` is configured; otherwise deletes the
    scanned entries whose `timestamp < Date.now() - duration`. There is no
    per-entry lifetime. -/
def Cache.prune (st : CacheState) (now : Int) : CacheState :=
  match st.options.lifetime with
  | none => st
  | some lt =>
    match lt.duration with
    | none => st
    | some d =>
      if d = 0 then st
      else { st with store := pruneLoopAux (now - d) st.store 0 st.store }

/-- Rejections of the memoization wrapper. -/
inductive MemoErr where
  | missingArgs
  | cacheErr (e : CacheErr)
deriving DecidableEq, Repr

/-- The default-constructed cache used by `memoizer` (`new Cache()`). -/
def defaultCache : CacheState := { options := {}, store := [], nextRef := 0 }

/-- One call of the function returned by `memoizer fn` (source lines 3–23),
    at wall-clock `now`, with the memo cache state threaded explicitly; `fn`
    may read the clock through its first argument. The third component
    reports whether `fn` was invoked during the call. -/
def memoCall (fn : Int → Val → Val) (st : CacheState) (now : Int) (args : Option Val) :
    Except MemoErr (Option Val) × CacheState × Bool :=
  match args with
  | none => (.error .missingArgs, st, false)
  | some a =>
    if !a.truthy then (.error .missingArgs, st, false)
    else
      let key := KeyV.str (stringifyVal a)
      if Cache.has st key then
        match Cache.get st key none with
        | .ok v => (.ok v, st, false)
        | .error e => (.error (.cacheErr e), st, false)
      else
        let result := fn now a
        match Cache.add st now (some key) (some result) ⟨none, none⟩ with
        | (.ok _, st2) => (.ok (some result), st2, true)
        | (.error e, st2) => (.error (.cacheErr e), st2, true)

/-- A sequence of `add` calls, folded over the state (each element carries
    the call's clock, key, value and per-call options). -/
def addSeq (st : CacheState) : List (Int × Option KeyV × Option Val × AddOptions) → CacheState
  | [] => st
  | op :: rest => addSeq (Cache.add st op.1 op.2.1 op.2.2.1 op.2.2.2).2 rest

/-- Concrete fixture: a cache constructed with `lifetime.duration = 500`
    into which `add "k" 7` was performed at t = 0. -/
def lifetimeSt : CacheState :=
  (Cache.add { options := { lifetime := some { duration := some 500 } }, store := [], nextRef := 0 }
    0 (some (KeyV.str "k")) (some (Val.prim (.num 7))) ⟨none, none⟩).2

/-- Concrete fixture: an empty cache constructed with `throwOnEmpty = true`. -/
def throwSt : CacheState := { options := { throwOnEmpty := true }, store := [], nextRef := 0 }

/-- Concrete fixture: a default cache into which the falsy-but-valid value
    `0` was added under key "k". -/
def zeroSt : CacheState :=
  (Cache.add defaultCache 0 (some (KeyV.str "k")) (some (Val.prim (.num 0))) ⟨none, none⟩).2

/-- Concrete fixture: a cache with `duplicateAddThrows = true` holding
    "k" ↦ "v1". -/
def dupSt : CacheState :=
  (Cache.add { options := { duplicateAddThrows := true }, store := [], nextRef := 0 }
    0 (some (KeyV.str "k")) (some (Val.prim (.str "v1"))) ⟨none, none⟩).2

/-- Concrete fixture: the entry "a" ↦ 1 inserted at t = 0. -/
def aEntry : KeyV × CObj := (KeyV.str "a", ⟨KeyV.str "a", Val.prim (.num 1), 0⟩)

/-- Concrete fixture: the entry "b" ↦ 2 inserted at t = 1. -/
def bEntry : KeyV × CObj := (KeyV.str "b", ⟨KeyV.str "b", Val.prim (.num 2), 1⟩)

/-- Concrete fixture: a cache with `limit = 2` at capacity, holding the
    entries "a" and "b" in insertion order. -/
def limit2St : CacheState :=
  { options := { limit := some 2 }, store := [aEntry, bEntry], nextRef := 0 }

/-- Concrete fixture: `limit = 2`; add a, add b, then add b again (replace
    at capacity). -/
def limit3St : CacheState :=
  (Cache.add
    (Cache.add
      (Cache.add { options := { limit := some 2 }, store := [], nextRef := 0 }
        0 (some (KeyV.str "a")) (some (Val.prim (.num 1))) ⟨none, none⟩).2
      1 (some (KeyV.str "b")) (some (Val.prim (.num 2))) ⟨none, none⟩).2
    2 (some (KeyV.str "b")) (some (Val.prim (.num 3))) ⟨none, none⟩).2

/-- Concrete fixture: entry "a", inserted at t = 0 (expired at t = 1000
    under duration 500). -/
def expA : KeyV × CObj := (KeyV.str "a", ⟨KeyV.str "a", Val.prim (.num 1), 0⟩)

/-- Concrete fixture: entry "b", inserted at t = 0 (expired at t = 1000
    under duration 500). -/
def expB : KeyV × CObj := (KeyV.str "b", ⟨KeyV.str "b", Val.prim (.num 2), 0⟩)

/-- Concrete fixture: entry "b", inserted at t = 700 (not expired at
    t = 1000 under duration 500). -/
def freshB : KeyV × CObj := (KeyV.str "b", ⟨KeyV.str "b", Val.prim (.num 2), 700⟩)

/-- Concrete fixture: a memoized function that ignores clock and argument
    and returns the falsy result 0. -/
def constZero : Int → Val → Val := fun _ _ => Val.prim (.num 0)

/-- Concrete fixture: a memoized function whose result depends on the
    current time. -/
def incTime : Int → Val → Val := fun t _ => Val.prim (.num (t + 1))

/-- Concrete fixture: an empty cache constructed with `limit = 0`. -/
def zeroLimitSt : CacheState := { options := { limit := some 0 }, store := [], nextRef := 0 }

/-! ### Lemmas about the `Map` model -/

theorem mapGet_mapSet_self (s : Store) (k : KeyV) (o : CObj) :
    mapGet (mapSet s k o) k = some o := by
  induction s with
  | nil => simp [mapSet, mapGet]
  | cons e rest ih =>
    by_cases h : e.1 = k
    · simp [mapSet, h, mapGet]
    · simp [mapSet, h, mapGet, ih]

theorem mapGet_mapSet_ne (s : Store) (k k2 : KeyV) (o : CObj) (h : k2 ≠ k) :
    mapGet (mapSet s k o) k2 = mapGet s k2 := by
  have hk : ¬(k = k2) := fun hc => h hc.symm
  induction s with
  | nil => simp [mapSet, mapGet, hk]
  | cons e rest ih =>
    by_cases he : e.1 = k
    · subst he
      simp [mapSet, mapGet, hk]
    · simp only [mapSet, if_neg he]
      by_cases he2 : e.1 = k2 <;> simp [mapGet, he2, ih]

theorem mapHas_mapSet_self (s : Store) (k : KeyV) (o : CObj) :
    mapHas (mapSet s k o) k = true := by
  simp [mapHas, mapGet_mapSet_self]

theorem mapHas_of_mem (s : Store) (e : KeyV × CObj) (he : e ∈ s) :
    mapHas s e.1 = true := by
  induction s with
  | nil => cases he
  | cons f rest ih =>
    by_cases hf : f.1 = e.1
    · simp [mapHas, mapGet, hf]
    · rcases List.mem_cons.mp he with rfl | hm
      · exact absurd rfl hf
      · simpa [mapHas, mapGet, hf] using ih hm

theorem mapGet_eq_none_of_not_mem (s : Store) (k : KeyV) (h : k ∉ s.map Prod.fst) :
    mapGet s k = none := by
  induction s with
  | nil => rfl
  | cons e rest ih =>
    simp only [List.map_cons, List.mem_cons] at h
    push_neg at h
    have hne : ¬(e.1 = k) := fun hc => h.1 hc.symm
    simp [mapGet, hne, ih h.2]

theorem mapGet_mapDelete_self (s : Store) (k : KeyV) (hnd : (s.map Prod.fst).Nodup) :
    mapGet (mapDelete s k) k = none := by
  induction s with
  | nil => rfl
  | cons e rest ih =>
    simp only [List.map_cons, List.nodup_cons] at hnd
    by_cases h : e.1 = k
    · subst h
      simpa [mapDelete] using mapGet_eq_none_of_not_mem rest e.1 hnd.1
    · simp [mapDelete, h, mapGet, ih hnd.2]

theorem mapSet_length (s : Store) (k : KeyV) (o : CObj) :
    (mapSet s k o).length = if mapHas s k then s.length else s.length + 1 := by
  induction s with
  | nil => simp [mapSet, mapHas, mapGet]
  | cons e rest ih =>
    by_cases h : e.1 = k
    · simp [mapSet, h, mapHas, mapGet]
    · have hhas : mapHas (e :: rest) k = mapHas rest k := by simp [mapHas, mapGet, h]
      rw [hhas]
      simp only [mapSet, if_neg h, List.length_cons, ih]
      by_cases h2 : mapHas rest k <;> simp [h2]

theorem mapDelete_append (l₁ : Store) (k : KeyV) (o : CObj) (l₂ : Store)
    (h : ∀ e ∈ l₁, e.1 ≠ k) :
    mapDelete (l₁ ++ (k, o) :: l₂) k = l₁ ++ l₂ := by
  induction l₁ with
  | nil => simp [mapDelete]
  | cons e rest ih =>
    have he : e.1 ≠ k := h e (List.mem_cons_self e rest)
    have ih2 := ih (fun x hx => h x (List.mem_cons_of_mem e hx))
    simp [mapDelete, he, ih2]

/-! ### Lemmas about `add` and `doInsert` -/

theorem doInsert_options (st : CacheState) (k : KeyV) (v : Val) (a : AddObjectAs) (now : Int) :
    (doInsert st k v a now).options = st.options := by
  cases v with
  | prim p => rfl
  | obj r sh => cases a <;> rfl

theorem doInsert_store_shape (st : CacheState) (k : KeyV) (v : Val) (a : AddObjectAs) (now : Int) :
    ∃ o : CObj, (doInsert st k v a now).store = mapSet st.store k o := by
  cases v with
  | prim p => exact ⟨_, rfl⟩
  | obj r sh => cases a <;> exact ⟨_, rfl⟩

theorem get_doInsert_byRef (st : CacheState) (k : KeyV) (r : Nat) (sh : Shape) (now : Int) :
    Cache.get (doInsert st k (Val.obj r sh) .byReference now) k none
      = .ok (some (Val.obj r sh)) := by
  simp [doInsert, Cache.get, mapHas_mapSet_self, mapGet_mapSet_self, Val.truthy]

theorem get_doInsert_clone (st : CacheState) (k : KeyV) (r : Nat) (sh : Shape) (now : Int) :
    Cache.get (doInsert st k (Val.obj r sh) .clone now) k none
      = .ok (some (Val.obj st.nextRef sh)) := by
  simp [doInsert, Cache.get, mapHas_mapSet_self, mapGet_mapSet_self, Val.truthy]

theorem jsonOfShape_length_pos (sh : Shape) : 0 < (jsonOfShape sh).length := by
  simp [jsonOfShape, String.length_append]
  exact Or.inl (Or.inl (by decide))

theorem get_doInsert_stringify (st : CacheState) (k : KeyV) (r : Nat) (sh : Shape) (now : Int) :
    Cache.get (doInsert st k (Val.obj r sh) .stringify now) k none
      = .ok (some (Val.prim (.str (jsonOfShape sh)))) := by
  have hlen := jsonOfShape_length_pos sh
  have ht : (Val.prim (.str (jsonOfShape sh))).truthy = true := by
    simp [Val.truthy]
    omega
  simp [doInsert, Cache.get, mapHas_mapSet_self, mapGet_mapSet_self, ht]

theorem get_doInsert_prim (st : CacheState) (k : KeyV) (p : Prim) (a : AddObjectAs) (now : Int)
    (ht : (Val.prim p).truthy = true) :
    Cache.get (doInsert st k (Val.prim p) a now) k none = .ok (some (Val.prim p)) := by
  simp [doInsert, Cache.get, mapHas_mapSet_self, mapGet_mapSet_self, ht]

theorem add_ok_shape (st : CacheState) (now : Int) (k : KeyV) (v : Val) (ao : AddOptions)
    (h : (Cache.add st now (some k) (some v) ao).1 = .ok ()) :
    ∃ s0 : Store,
      (Cache.add st now (some k) (some v) ao).2
        = doInsert { st with store := s0 } k v
            (ao.addObjectAs.getD (st.options.addObjectsAs.getD .byReference)) now := by
  cases hkl : (keyToString k).length == 0 with
  | true => simp [Cache.add, hkl] at h
  | false =>
    by_cases hlim : st.options.limit = some st.store.length
    · cases hs : st.store with
      | nil =>
        exfalso
        simp [Cache.add, hkl, hlim, hs, mapHas, mapGet] at h
      | cons e rest =>
        refine ⟨mapDelete st.store e.1, ?_⟩
        simp [Cache.add, hkl, hlim, hs]
    · exact ⟨st.store, by simp [Cache.add, hkl, hlim]⟩

/-! ### C1: expiry on read -/

/-- C1 (amended): `get`, `pop` and `has` perform no expiry check at all —
    they consult only physical store membership. Whenever an entry is
    physically present, whatever its age and whatever lifetime is
    configured, `has` is true and `get`/`pop` return its (truthy) value;
    an expired entry becomes absent only once a prune tick physically
    removes it. -/
theorem C1_reads_ignore_expiry (st : CacheState) (k : KeyV) (obj : CObj)
    (hget : mapGet st.store k = some obj) (ht : obj.value.truthy = true) :
    Cache.has st k = true
      ∧ Cache.get st k none = .ok (some obj.value)
      ∧ (Cache.pop st k none).1 = .ok (some obj.value) := by
  have hhas : mapHas st.store k = true := by simp [mapHas, hget]
  refine ⟨hhas, ?_, ?_⟩
  · simp [Cache.get, hhas, hget, ht]
  · simp [Cache.pop, hhas, Cache.get, hget, ht]

/-- C1 counterexample: in a cache with `lifetime.duration = 500`, the entry
    added at t = 0 has age exceeding 500 at t = 600, yet with no prune tick
    `has` still reports true and `get` still returns the value — the claim
    that reads treat the expired entry as absent fails. -/
theorem C1_cx :
    (500 : Int) < 600 - 0
      ∧ Cache.has lifetimeSt (KeyV.str "k") = true
      ∧ Cache.get lifetimeSt (KeyV.str "k") none = .ok (some (Val.prim (.num 7))) := by
  decide

/-- Witness for `C1_reads_ignore_expiry` at the concrete
    expired-but-unpruned state. -/
theorem C1_witness :
    Cache.has lifetimeSt (KeyV.str "k") = true
      ∧ Cache.get lifetimeSt (KeyV.str "k") none = .ok (some (Val.prim (.num 7)))
      ∧ (Cache.pop lifetimeSt (KeyV.str "k") none).1 = .ok (some (Val.prim (.num 7))) :=
  C1_reads_ignore_expiry lifetimeSt (KeyV.str "k")
    ⟨KeyV.str "k", Val.prim (.num 7), 0⟩ (by decide) (by decide)

/-! ### C6: throw-on-empty policy resolution -/

/-- C6 (amended): for `get` and `pop` the effective throw-on-empty policy is
    the boolean disjunction of the constructor flag and the per-call
    argument (an absent per-call argument counts as false). A per-call
    `true` enables throwing when the constructor flag is false, but a
    per-call `false` cannot override a constructor-level `true`. -/
theorem C6_throw_policy_disjunction (st : CacheState) (k : KeyV) (oc : Option Bool)
    (habs : mapHas st.store k = false) :
    (Cache.get st k oc = .error .notFound
        ↔ (st.options.throwOnEmpty || oc.getD false) = true)
      ∧ ((Cache.pop st k oc).1 = .error .notFound
        ↔ (st.options.throwOnEmpty || oc.getD false) = true)
      ∧ ((st.options.throwOnEmpty || oc.getD false) = false →
          Cache.get st k oc = .ok none ∧ (Cache.pop st k oc).1 = .ok none) := by
  have hget0 : mapGet st.store k = none := by
    cases h : mapGet st.store k with
    | none => rfl
    | some o => simp [mapHas, h] at habs
  cases hto : st.options.throwOnEmpty <;> cases hoc : oc.getD false <;>
    simp [Cache.get, Cache.pop, habs, hget0, hto, hoc]

/-- C6 counterexample: with constructor `throwOnEmpty = true`, a per-call
    `throwOnEmpty = false` does not override it — `get` on an absent key
    rejects instead of resolving absent. -/
theorem C6_cx : Cache.get throwSt (KeyV.str "k") (some false) = .error .notFound := by decide

/-- Witness for `C6_throw_policy_disjunction` at a concrete state. -/
theorem C6_witness :
    (Cache.get throwSt (KeyV.str "x") (some false) = .error .notFound
        ↔ (throwSt.options.throwOnEmpty || (some false).getD false) = true)
      ∧ ((Cache.pop throwSt (KeyV.str "x") (some false)).1 = .error .notFound
        ↔ (throwSt.options.throwOnEmpty || (some false).getD false) = true)
      ∧ ((throwSt.options.throwOnEmpty || (some false).getD false) = false →
          Cache.get throwSt (KeyV.str "x") (some false) = .ok none
            ∧ (Cache.pop throwSt (KeyV.str "x") (some false)).1 = .ok none) :=
  C6_throw_policy_disjunction throwSt (KeyV.str "x") (some false) (by decide)

/-! ### C3: add/get round trip per storage mode -/

/-- C3 (amended): a successful `add` followed by `get` returns the value as
    transformed at add time — the identical reference under `byReference`,
    a fresh-reference copy with the same shape under `clone` (not identical
    when the allocated reference differs from the original), and the
    serialization string under `stringify` — and a primitive value is
    returned unchanged provided it is truthy; for falsy-but-valid values
    (the number 0, the empty string) `get` returns undefined instead,
    because the read goes through `entry?.value || undefined`. -/
theorem C3_add_get_roundtrip (st : CacheState) (now : Int) (k : KeyV) (r : Nat) (sh : Shape)
    (p : Prim) :
    ((Cache.add st now (some k) (some (Val.obj r sh)) ⟨some .byReference, none⟩).1 = .ok () →
        Cache.get (Cache.add st now (some k) (some (Val.obj r sh)) ⟨some .byReference, none⟩).2
            k none = .ok (some (Val.obj r sh)))
      ∧ ((Cache.add st now (some k) (some (Val.obj r sh)) ⟨some .clone, none⟩).1 = .ok () →
          Cache.get (Cache.add st now (some k) (some (Val.obj r sh)) ⟨some .clone, none⟩).2
              k none = .ok (some (Val.obj st.nextRef sh)))
      ∧ (st.nextRef ≠ r → Val.obj st.nextRef sh ≠ Val.obj r sh)
      ∧ ((Cache.add st now (some k) (some (Val.obj r sh)) ⟨some .stringify, none⟩).1 = .ok () →
          Cache.get (Cache.add st now (some k) (some (Val.obj r sh)) ⟨some .stringify, none⟩).2
              k none = .ok (some (Val.prim (.str (jsonOfShape sh)))))
      ∧ ((Val.prim p).truthy = true →
          (Cache.add st now (some k) (some (Val.prim p)) ⟨none, none⟩).1 = .ok () →
          Cache.get (Cache.add st now (some k) (some (Val.prim p)) ⟨none, none⟩).2
              k none = .ok (some (Val.prim p))) := by
  refine ⟨?_, ?_, ?_, ?_, ?_⟩
  · intro h
    obtain ⟨s0, hsh⟩ := add_ok_shape st now k (Val.obj r sh) ⟨some .byReference, none⟩ h
    rw [hsh]
    exact get_doInsert_byRef _ k r sh now
  · intro h
    obtain ⟨s0, hsh⟩ := add_ok_shape st now k (Val.obj r sh) ⟨some .clone, none⟩ h
    rw [hsh]
    exact get_doInsert_clone _ k r sh now
  · intro hne hc
    exact hne (by injection hc)
  · intro h
    obtain ⟨s0, hsh⟩ := add_ok_shape st now k (Val.obj r sh) ⟨some .stringify, none⟩ h
    rw [hsh]
    exact get_doInsert_stringify _ k r sh now
  · intro ht h
    obtain ⟨s0, hsh⟩ := add_ok_shape st now k (Val.prim p) ⟨none, none⟩ h
    rw [hsh]
    exact get_doInsert_prim _ k p _ now ht

/-- C3 counterexample: the falsy-but-valid value 0 is accepted by `add`,
    but `get` returns undefined rather than 0. -/
theorem C3_cx :
    (Cache.add defaultCache 0 (some (KeyV.str "k")) (some (Val.prim (.num 0))) ⟨none, none⟩).1
        = .ok ()
      ∧ Cache.get zeroSt (KeyV.str "k") none = .ok none
      ∧ Cache.get zeroSt (KeyV.str "k") none ≠ .ok (some (Val.prim (.num 0))) := by
  decide

/-- Witness for `C3_add_get_roundtrip`: the clone-mode conjunct at a
    concrete cache, key, and object value. -/
theorem C3_witness :
    Cache.get (Cache.add defaultCache 0 (some (KeyV.str "k"))
        (some (Val.obj 5 [("a", Prim.num 1)])) ⟨some .clone, none⟩).2 (KeyV.str "k") none
      = .ok (some (Val.obj 0 [("a", Prim.num 1)])) :=
  (C3_add_get_roundtrip defaultCache 0 (KeyV.str "k") 5 [("a", Prim.num 1)] (Prim.str "x")).2.1
    (by decide)

/-! ### C2: duplicate-key policy -/

/-- C2: with `duplicateAddThrows = true` the second `add` on an existing key
    does reject with the duplicate-key error, but — contrary to the claim —
    the store is not left unchanged: the missing early return lets the
    eviction/insertion code run, so the entry is replaced and `get` yields
    v2, not v1. -/
theorem C2_bug_eval :
    (Cache.add dupSt 1 (some (KeyV.str "k")) (some (Val.prim (.str "v2"))) ⟨none, none⟩).1
        = .error .duplicateKey
      ∧ Cache.get
          (Cache.add dupSt 1 (some (KeyV.str "k")) (some (Val.prim (.str "v2"))) ⟨none, none⟩).2
          (KeyV.str "k") none = .ok (some (Val.prim (.str "v2"))) := by
  decide

/-! ### C4: FIFO eviction at the limit -/

/-- C4 (amended): with `limit = N`, an `add` with valid key and value evicts
    exactly one entry — the oldest by insertion order — whenever the store's
    size equals the limit at the time of the call, including when the add
    merely replaces an existing key at capacity (in which case the store
    shrinks below the limit); when the size differs from the limit no entry
    is evicted. Eviction never removes more than one entry and happens
    before the insertion. -/
theorem C4_eviction (st : CacheState) (now : Int) (k : KeyV) (v : Val)
    (f : KeyV × CObj) (rest : Store)
    (hk : ((keyToString k).length == 0) = false)
    (hdup : st.options.duplicateAddThrows = false) :
    (st.options.limit = some st.store.length → st.store = f :: rest →
        mapHas rest f.1 = false → f.1 ≠ k →
        (Cache.add st now (some k) (some v) ⟨none, none⟩).1 = .ok ()
          ∧ Cache.has (Cache.add st now (some k) (some v) ⟨none, none⟩).2 f.1 = false
          ∧ Cache.has (Cache.add st now (some k) (some v) ⟨none, none⟩).2 k = true
          ∧ (Cache.add st now (some k) (some v) ⟨none, none⟩).2.store.length
              = if mapHas rest k then st.store.length - 1 else st.store.length)
      ∧ (¬(st.options.limit = some st.store.length) →
          (Cache.add st now (some k) (some v) ⟨none, none⟩).1 = .ok ()
            ∧ (∀ e ∈ st.store, Cache.has (Cache.add st now (some k) (some v) ⟨none, none⟩).2
                e.1 = true)
            ∧ Cache.has (Cache.add st now (some k) (some v) ⟨none, none⟩).2 k = true) := by
  constructor
  · intro hlim hstore hrest hne
    have hdel : mapDelete st.store f.1 = rest := by
      rw [hstore]
      simp [mapDelete]
    have hres : (Cache.add st now (some k) (some v) ⟨none, none⟩).1 = .ok () := by
      simp [Cache.add, hk, hlim, hstore, hdup]
    have hst2 : (Cache.add st now (some k) (some v) ⟨none, none⟩).2
        = doInsert { st with store := rest } k v
            (st.options.addObjectsAs.getD .byReference) now := by
      have hdel2 : mapDelete (f :: rest) f.1 = rest := by simp [mapDelete]
      simp [Cache.add, hk, hlim, hstore, hdup, hdel2]
    obtain ⟨o, ho⟩ := doInsert_store_shape { st with store := rest } k v
      (st.options.addObjectsAs.getD .byReference) now
    refine ⟨hres, ?_, ?_, ?_⟩
    · simp only [Cache.has, hst2, ho]
      simp [mapHas, mapGet_mapSet_ne _ _ _ _ hne]
      simp [mapHas] at hrest
      exact hrest
    · simp only [Cache.has, hst2, ho]
      exact mapHas_mapSet_self _ _ _
    · simp only [hst2, ho, mapSet_length]
      rw [hstore]
      by_cases hrk : mapHas rest k <;> simp [hrk]
  · intro hlim
    have hres : (Cache.add st now (some k) (some v) ⟨none, none⟩).1 = .ok () := by
      simp [Cache.add, hk, hlim, hdup]
    have hst2 : (Cache.add st now (some k) (some v) ⟨none, none⟩).2
        = doInsert st k v (st.options.addObjectsAs.getD .byReference) now := by
      simp [Cache.add, hk, hlim, hdup]
    obtain ⟨o, ho⟩ := doInsert_store_shape st k v
      (st.options.addObjectsAs.getD .byReference) now
    refine ⟨hres, ?_, ?_⟩
    · intro e he
      simp only [Cache.has, hst2, ho]
      by_cases hek : e.1 = k
      · rw [hek]
        exact mapHas_mapSet_self _ _ _
      · simp [mapHas, mapGet_mapSet_ne _ _ _ _ hek]
        have := mapHas_of_mem st.store e he
        simpa [mapHas] using this
    · simp only [Cache.has, hst2, ho]
      exact mapHas_mapSet_self _ _ _

/-- C4 counterexample: limit = 2, add a, add b, then add b again. The claim
    says a replacement at capacity must not evict, so "a" should survive;
    the code evicts the oldest entry anyway, and the store shrinks to one
    entry. -/
theorem C4_cx :
    Cache.has limit3St (KeyV.str "a") = false ∧ limit3St.store.length = 1 := by decide

/-- Witness for `C4_eviction`: the at-capacity replacement conjunct at a
    concrete two-entry cache with limit 2. -/
theorem C4_witness :
    (Cache.add limit2St 2 (some (KeyV.str "b")) (some (Val.prim (.num 3))) ⟨none, none⟩).1
        = .ok ()
      ∧ Cache.has
          (Cache.add limit2St 2 (some (KeyV.str "b")) (some (Val.prim (.num 3))) ⟨none, none⟩).2
          aEntry.1 = false
      ∧ Cache.has
          (Cache.add limit2St 2 (some (KeyV.str "b")) (some (Val.prim (.num 3))) ⟨none, none⟩).2
          (KeyV.str "b") = true
      ∧ ((Cache.add limit2St 2 (some (KeyV.str "b")) (some (Val.prim (.num 3)))
            ⟨none, none⟩).2).store.length
        = if mapHas [bEntry] (KeyV.str "b") then limit2St.store.length - 1
          else limit2St.store.length :=
  (C4_eviction limit2St 2 (KeyV.str "b") (Val.prim (.num 3)) aEntry [bEntry]
      (by decide) (by decide)).1 (by decide) (by decide) (by decide) (by decide)

theorem add_valid_result (st : CacheState) (now : Int) (k : KeyV) (v : Val) (ao : AddOptions)
    (hkl : ((keyToString k).length == 0) = false) :
    (Cache.add st now (some k) (some v) ao).1 = .error .duplicateKey
      ∨ (Cache.add st now (some k) (some v) ao).1 = .error .fault
      ∨ (Cache.add st now (some k) (some v) ao).1 = .ok () := by
  by_cases hlim : st.options.limit = some st.store.length
  · cases hs : st.store with
    | nil => simp [Cache.add, hkl, hlim, hs, mapHas, mapGet]
    | cons e rest =>
      simp only [Cache.add, hkl]
      simp [hlim, hs]
      split <;> simp
  · simp only [Cache.add, hkl]
    simp [hlim]
    split <;> simp

/-! ### C7: pop semantics -/

/-- C7 (amended): `pop` on a key absent from the store behaves exactly like
    `get`'s not-found case — it rejects iff the disjunctive throw policy is
    set, otherwise resolves absent — and leaves the state unchanged. On a
    physically present key, expired or not, `pop` resolves exactly the value
    `get` would deliver (the stored value when truthy, undefined when
    falsy) and removes the entry in the same operation, so the key is
    absent afterwards. -/
theorem C7_pop_semantics (st : CacheState) (k : KeyV) (oc : Option Bool) :
    (mapHas st.store k = false →
        (Cache.pop st k oc).1 = Cache.get st k oc ∧ (Cache.pop st k oc).2 = st)
      ∧ (∀ obj : CObj, mapGet st.store k = some obj → (st.store.map Prod.fst).Nodup →
          (Cache.pop st k oc).1 = .ok (if obj.value.truthy then some obj.value else none)
            ∧ (Cache.pop st k oc).2.store = mapDelete st.store k
            ∧ Cache.has (Cache.pop st k oc).2 k = false) := by
  constructor
  · intro habs
    have hget0 : mapGet st.store k = none := by
      cases h : mapGet st.store k with
      | none => rfl
      | some o => simp [mapHas, h] at habs
    cases hto : st.options.throwOnEmpty <;> cases hoc : oc.getD false <;>
      simp [Cache.pop, Cache.get, habs, hget0, hto, hoc]
  · intro obj hobj hnd
    have hhas : mapHas st.store k = true := by simp [mapHas, hobj]
    have hdel : mapGet (mapDelete st.store k) k = none := mapGet_mapDelete_self _ _ hnd
    refine ⟨?_, ?_, ?_⟩
    · simp [Cache.pop, Cache.get, hhas, hobj]
    · simp [Cache.pop, Cache.get, hhas, hobj]
    · simp [Cache.pop, Cache.get, hhas, hobj, Cache.has, mapHas, hdel]

/-- C7 counterexample: `pop` on an expired-but-unpruned key (entry added at
    t = 0 with duration 500, popped at t = 600) does not follow the
    not-found path: it returns the stored value instead of resolving absent
    or rejecting. -/
theorem C7_cx :
    (500 : Int) < 600 - 0
      ∧ (Cache.pop lifetimeSt (KeyV.str "k") none).1 = .ok (some (Val.prim (.num 7))) := by
  decide

/-- Witness for `C7_pop_semantics`: the present-key conjunct at a concrete
    one-entry cache. -/
theorem C7_witness :
    (Cache.pop lifetimeSt (KeyV.str "k") none).1
        = .ok (if (Val.prim (Prim.num 7)).truthy then some (Val.prim (Prim.num 7)) else none)
      ∧ (Cache.pop lifetimeSt (KeyV.str "k") none).2.store
          = mapDelete lifetimeSt.store (KeyV.str "k")
      ∧ Cache.has (Cache.pop lifetimeSt (KeyV.str "k") none).2 (KeyV.str "k") = false :=
  (C7_pop_semantics lifetimeSt (KeyV.str "k") none).2
    ⟨KeyV.str "k", Val.prim (.num 7), 0⟩ (by decide) (by decide)

/-! ### C8: empty-key and empty-value validation -/

/-- C8: `add` rejects with the empty-key error iff the key is null/undefined
    or its string representation has zero length; for a valid key it
    rejects with the empty-value error iff the value is null/undefined (the
    key check precedes the value check, so both empty yields the empty-key
    error); in either rejection case the state is unchanged. -/
theorem C8_empty_checks (st : CacheState) (now : Int) (key : Option KeyV)
    (value : Option Val) (ao : AddOptions) :
    ((Cache.add st now key value ao).1 = .error .emptyKey ↔ emptyKeyCheck key = true)
      ∧ (emptyKeyCheck key = false →
          ((Cache.add st now key value ao).1 = .error .emptyValue ↔ value = none))
      ∧ (emptyKeyCheck key = true ∨ value = none → (Cache.add st now key value ao).2 = st) := by
  cases key with
  | none =>
    refine ⟨by simp [Cache.add, emptyKeyCheck], ?_, ?_⟩
    · intro h
      simp [emptyKeyCheck] at h
    · intro _
      rfl
  | some k =>
    cases hkl : (keyToString k).length == 0 with
    | true =>
      refine ⟨by simp [Cache.add, hkl, emptyKeyCheck], ?_, ?_⟩
      · intro h
        simp [emptyKeyCheck, hkl] at h
      · intro _
        simp [Cache.add, hkl]
    | false =>
      cases value with
      | none =>
        refine ⟨?_, ?_, ?_⟩
        · simp [Cache.add, hkl, emptyKeyCheck]
        · intro _
          simp [Cache.add, hkl]
        · intro _
          simp [Cache.add, hkl]
      | some v =>
        have hval := add_valid_result st now k v ao hkl
        refine ⟨?_, ?_, ?_⟩
        · constructor
          · intro h
            rcases hval with hv | hv | hv <;> rw [hv] at h <;> simp at h
          · intro h
            simp [emptyKeyCheck, hkl] at h
        · intro _
          constructor
          · intro h
            rcases hval with hv | hv | hv <;> rw [hv] at h <;> simp at h
          · intro h
            exact absurd h (by simp)
        · intro h
          rcases h with h | h
          · simp [emptyKeyCheck, hkl] at h
          · exact absurd h (by simp)

/-- Witness for `C8_empty_checks`: both key and value empty yields the
    empty-key error on an unchanged state. -/
theorem C8_witness :
    (Cache.add defaultCache 0 none none ⟨none, none⟩).1 = .error .emptyKey
      ∧ (Cache.add defaultCache 0 none none ⟨none, none⟩).2 = defaultCache :=
  ⟨((C8_empty_checks defaultCache 0 none none ⟨none, none⟩).1).mpr (by decide),
    ((C8_empty_checks defaultCache 0 none none ⟨none, none⟩).2.2) (Or.inl (by decide))⟩

/-! ### C5: the prune tick -/

theorem pruneLoopAux_unexpired (cutoff : Int) (scan : List (KeyV × CObj))
    (hun : ∀ e ∈ scan, cutoff ≤ e.2.timestamp) :
    ∀ (i : Nat) (s : Store), pruneLoopAux cutoff scan i s = s := by
  induction scan with
  | nil => intro i s; rfl
  | cons e rest ih =>
    intro i s
    have he : ¬(e.2.timestamp < cutoff) := not_lt.mpr (hun e (List.mem_cons_self e rest))
    have hrest : ∀ x ∈ rest, cutoff ≤ x.2.timestamp :=
      fun x hx => hun x (List.mem_cons_of_mem e hx)
    simp only [pruneLoopAux]
    split
    · simp [he, ih hrest]
    · rfl

theorem pruneLoopAux_one_expired (cutoff : Int) (k : KeyV) (o : CObj)
    (hexp : o.timestamp < cutoff)
    (l₂ : Store) (hl₂ : ∀ e ∈ l₂, cutoff ≤ e.2.timestamp) :
    ∀ (l₁ : List (KeyV × CObj)), (∀ e ∈ l₁, cutoff ≤ e.2.timestamp) →
      ∀ (i : Nat) (s : Store), i + l₁.length < s.length →
        pruneLoopAux cutoff (l₁ ++ (k, o) :: l₂) i s = mapDelete s k := by
  intro l₁
  induction l₁ with
  | nil =>
    intro _ i s hlen
    simp only [List.nil_append, pruneLoopAux]
    have hi : i < s.length := by simpa using hlen
    rw [if_pos hi]
    simp only [hexp, if_pos]
    exact pruneLoopAux_unexpired cutoff l₂ hl₂ (i + 1) (mapDelete s k)
  | cons f l₁' ih =>
    intro h1 i s hlen
    have hf : ¬(f.2.timestamp < cutoff) := not_lt.mpr (h1 f (List.mem_cons_self f l₁'))
    have h1' : ∀ e ∈ l₁', cutoff ≤ e.2.timestamp :=
      fun x hx => h1 x (List.mem_cons_of_mem f hx)
    have hi : i < s.length := by
      simp only [List.length_cons] at hlen
      omega
    have hlen' : (i + 1) + l₁'.length < s.length := by
      simp only [List.length_cons] at hlen
      omega
    simp only [List.cons_append, pruneLoopAux]
    rw [if_pos hi]
    simp only [hf, if_neg, ite_false]
    exact ih h1' (i + 1) s hlen'

theorem countP_le_one_split {α : Type} (p : α → Bool) :
    ∀ l : List α, l.countP p ≤ 1 →
      (∀ a ∈ l, p a = false) ∨
        ∃ l₁ a l₂, l = l₁ ++ a :: l₂ ∧ p a = true
          ∧ (∀ b ∈ l₁, p b = false) ∧ (∀ b ∈ l₂, p b = false) := by
  intro l
  induction l with
  | nil => intro _; left; simp
  | cons x xs ih =>
    intro h
    cases hx : p x with
    | false =>
      have hxs : xs.countP p ≤ 1 := by
        rw [List.countP_cons_of_neg p xs (by simp [hx])] at h
        exact h
      rcases ih hxs with hall | ⟨l₁, a, l₂, heq, hpa, h1, h2⟩
      · left
        intro b hb
        rcases List.mem_cons.mp hb with rfl | hb2
        · exact hx
        · exact hall b hb2
      · right
        refine ⟨x :: l₁, a, l₂, by simp [heq], hpa, ?_, h2⟩
        intro b hb
        rcases List.mem_cons.mp hb with rfl | hb2
        · exact hx
        · exact h1 b hb2
    | true =>
      have hxs : xs.countP p = 0 := by
        rw [List.countP_cons_of_pos p xs (by simp [hx])] at h
        omega
      right
      refine ⟨[], x, xs, by simp, hx, by simp, ?_⟩
      intro b hb
      have := List.countP_eq_zero.mp hxs b hb
      simpa using this

/-- C5 (amended): a prune tick compares each entry's age against the
    engine-level duration only (there is no per-entry lifetime override),
    and — because the loop bound `i < map.size` re-reads the live size,
    which shrinks on each deletion — a single tick is only guaranteed to
    leave exactly the unexpired entries (in order) when at most one entry
    is expired; with two or more expired entries, later ones can survive
    the tick. -/
theorem C5_prune_tick (opts : CacheOptions) (store : Store) (nref : Nat) (now d : Int)
    (fr : Option Int)
    (hlt : opts.lifetime = some { duration := some d, frequency := fr })
    (hd : d ≠ 0)
    (hnodup : (store.map Prod.fst).Nodup)
    (hcount : store.countP (fun e => decide (e.2.timestamp < now - d)) ≤ 1) :
    (Cache.prune { options := opts, store := store, nextRef := nref } now).store
      = store.filter (fun e => decide (now - d ≤ e.2.timestamp)) := by
  have hprune : (Cache.prune { options := opts, store := store, nextRef := nref } now).store
      = pruneLoopAux (now - d) store 0 store := by
    simp [Cache.prune, hlt, hd]
  rw [hprune]
  rcases countP_le_one_split (fun e => decide (e.2.timestamp < now - d)) store hcount with
    hall | ⟨l₁, a, l₂, heq, hpa, h1, h2⟩
  · have hun : ∀ e ∈ store, now - d ≤ e.2.timestamp := by
      intro e he
      have := hall e he
      simp at this
      omega
    rw [pruneLoopAux_unexpired (now - d) store hun 0 store]
    exact (List.filter_eq_self.mpr (fun e he => by simpa using hun e he)).symm
  · have hexp : a.2.timestamp < now - d := by simpa using hpa
    have hl₁ : ∀ e ∈ l₁, now - d ≤ e.2.timestamp := by
      intro e he
      have := h1 e he
      simp at this
      omega
    have hl₂ : ∀ e ∈ l₂, now - d ≤ e.2.timestamp := by
      intro e he
      have := h2 e he
      simp at this
      omega
    have hkeys : ∀ e ∈ l₁, e.1 ≠ a.1 := by
      intro e he hc
      rw [heq] at hnodup
      simp only [List.map_append, List.map_cons] at hnodup
      rcases List.nodup_append.mp hnodup with ⟨_, _, hdisj⟩
      exact hdisj (List.mem_map_of_mem Prod.fst he)
        (by rw [hc]; exact List.mem_cons_self _ _)
    have hlen : 0 + l₁.length < store.length := by
      simp only [heq, List.length_append, List.length_cons]
      omega
    have heq2 : store = l₁ ++ (a.1, a.2) :: l₂ := heq
    have hrun := pruneLoopAux_one_expired (now - d) a.1 a.2 hexp l₂ hl₂ l₁ hl₁ 0 store hlen
    rw [← heq2] at hrun
    rw [hrun, heq2]
    rw [mapDelete_append l₁ a.1 a.2 l₂ hkeys]
    have hdec : decide (now - d ≤ (a.1, a.2).2.timestamp) = false := by
      simp
      omega
    have hf1 : List.filter (fun e => decide (now - d ≤ e.2.timestamp)) l₁ = l₁ :=
      List.filter_eq_self.mpr (fun e he => by simpa using hl₁ e he)
    have hf2 : List.filter (fun e => decide (now - d ≤ e.2.timestamp)) l₂ = l₂ :=
      List.filter_eq_self.mpr (fun e he => by simpa using hl₂ e he)
    rw [List.filter_append, hf1, List.filter_cons, hdec,
      if_neg (by simp : ¬(false = true)), hf2]

/-- C5 counterexample: two entries both expired (added at t = 0, duration
    500, tick at t = 1000). The claim says one tick removes every expired
    entry; the code's shrinking loop bound stops the scan after the first
    deletion, so the second expired entry survives the tick. -/
theorem C5_cx :
    (Cache.prune { options := { lifetime := some { duration := some 500 } },
                   store := [expA, expB], nextRef := 0 } 1000).store = [expB]
      ∧ expB.2.timestamp < 1000 - 500 := by
  decide

/-- Witness for `C5_prune_tick`: one expired entry ("a", t = 0) and one
    fresh entry ("b", t = 700) under duration 500 at t = 1000. -/
theorem C5_witness :
    (Cache.prune { options := { lifetime := some { duration := some 500 } },
                   store := [expA, freshB], nextRef := 0 } 1000).store
      = [expA, freshB].filter (fun e => decide ((1000 : Int) - 500 ≤ e.2.timestamp)) :=
  C5_prune_tick { lifetime := some { duration := some 500 } } [expA, freshB] 0 1000 500 none
    rfl (by decide) (by decide) (by decide)

/-! ### C9: the memoization wrapper -/

theorem toDigitsCore_length_ge (b : Nat) :
    ∀ (f n : Nat) (ds : List Char), ds.length ≤ (Nat.toDigitsCore b f n ds).length := by
  intro f
  induction f with
  | zero => intro n ds; simp [Nat.toDigitsCore]
  | succ f ih =>
    intro n ds
    simp only [Nat.toDigitsCore]
    split
    · simp
    · exact le_trans (by simp) (ih (n / b) (Nat.digitChar (n % b) :: ds))

theorem natRepr_length_pos (n : Nat) : 0 < (Nat.repr n).length := by
  unfold Nat.repr
  rw [List.length_asString]
  unfold Nat.toDigits
  simp only [Nat.toDigitsCore]
  split
  · simp
  · exact lt_of_lt_of_le (by simp) (toDigitsCore_length_ge 10 n (n / 10) _)

theorem intToString_length_pos (n : Int) : 0 < (toString n).length := by
  cases n with
  | ofNat m => exact natRepr_length_pos m
  | negSucc m =>
    have h := natRepr_length_pos (m + 1)
    show 0 < ("-" ++ Nat.repr (m + 1)).length
    rw [String.length_append]
    omega

theorem stringify_length_ne_zero (v : Val) : ((stringifyVal v).length == 0) = false := by
  cases v with
  | prim p =>
    cases p with
    | str s =>
      have h1 : ("\"" : String).length = 1 := rfl
      simp [stringifyVal, Prim.json, String.length_append, h1]
    | num n =>
      have := intToString_length_pos n
      simp [stringifyVal, Prim.json]
      omega
  | obj r sh =>
    have := jsonOfShape_length_pos sh
    simp [stringifyVal]
    omega

/-- C9 (amended): for every memoized function and truthy argument, if the
    result computed on the first (miss) call is truthy, the second call with
    the same argument returns the very same result without invoking the
    function again, even though the clock has advanced; a call with a
    missing (or falsy) argument rejects with the missing-arguments error.
    (If the first result is falsy it is stored but read back as undefined on
    the hit, so the two calls then disagree.) -/
theorem C9_memoizer (fn : Int → Val → Val) (a : Val) (t1 t2 : Int)
    (ha : a.truthy = true) (hres : (fn t1 a).truthy = true) :
    (memoCall fn defaultCache t1 (some a)).1 = .ok (some (fn t1 a))
      ∧ (memoCall fn defaultCache t1 (some a)).2.2 = true
      ∧ (memoCall fn (memoCall fn defaultCache t1 (some a)).2.1 t2 (some a)).1
          = .ok (some (fn t1 a))
      ∧ (memoCall fn (memoCall fn defaultCache t1 (some a)).2.1 t2 (some a)).2.2 = false
      ∧ (memoCall fn defaultCache t1 none).1 = .error .missingArgs := by
  have hkey : ((keyToString (KeyV.str (stringifyVal a))).length == 0) = false := by
    simpa [keyToString] using stringify_length_ne_zero a
  have h1 : memoCall fn defaultCache t1 (some a)
      = (.ok (some (fn t1 a)),
          { options := {},
            store := [(KeyV.str (stringifyVal a),
              ⟨KeyV.str (stringifyVal a), fn t1 a, t1⟩)],
            nextRef := 0 }, true) := by
    cases hv : fn t1 a with
    | prim p =>
      simp [memoCall, ha, Cache.has, mapHas, mapGet, defaultCache, Cache.add, hkey,
        doInsert, mapSet, hv]
    | obj r sh =>
      simp [memoCall, ha, Cache.has, mapHas, mapGet, defaultCache, Cache.add, hkey,
        doInsert, mapSet, hv]
  have h2 : memoCall fn ((memoCall fn defaultCache t1 (some a)).2.1) t2 (some a)
      = (.ok (some (fn t1 a)), (memoCall fn defaultCache t1 (some a)).2.1, false) := by
    rw [h1]
    simp [memoCall, ha, Cache.has, mapHas, mapGet, Cache.get, hres]
  refine ⟨?_, ?_, ?_, ?_, rfl⟩
  · rw [h1]
  · rw [h1]
  · rw [h2, h1]
  · rw [h2]

/-- C9 counterexample: a memoized function returning the falsy result 0.
    The first call returns 0; the second call hits the cache but reads the
    stored 0 back through `entry?.value || undefined` and returns undefined,
    so the two calls do not return the same result. -/
theorem C9_cx :
    (memoCall constZero defaultCache 0 (some (Val.prim (.num 5)))).1
        = .ok (some (Val.prim (.num 0)))
      ∧ (memoCall constZero
          (memoCall constZero defaultCache 0 (some (Val.prim (.num 5)))).2.1 600
          (some (Val.prim (.num 5)))).1 = .ok none
      ∧ ((.ok none : Except MemoErr (Option Val)) ≠ .ok (some (Val.prim (.num 0)))) := by
  decide

/-- Witness for `C9_memoizer`: a time-dependent function memoized at t = 0
    and called again at t = 600 still yields the t = 0 result without a
    second invocation. -/
theorem C9_witness :
    (memoCall incTime defaultCache 0 (some (Val.prim (.num 5)))).1
        = .ok (some (Val.prim (.num (0 + 1))))
      ∧ (memoCall incTime defaultCache 0 (some (Val.prim (.num 5)))).2.2 = true
      ∧ (memoCall incTime (memoCall incTime defaultCache 0 (some (Val.prim (.num 5)))).2.1 600
          (some (Val.prim (.num 5)))).1 = .ok (some (Val.prim (.num (0 + 1))))
      ∧ (memoCall incTime (memoCall incTime defaultCache 0 (some (Val.prim (.num 5)))).2.1 600
          (some (Val.prim (.num 5)))).2.2 = false
      ∧ (memoCall incTime defaultCache 0 none).1 = .error .missingArgs :=
  C9_memoizer incTime (Val.prim (.num 5)) 0 600 (by decide) (by decide)

/-! ### C10: limit = 0 -/

theorem add_stuck (st : CacheState) (h0 : st.options.limit = some 0) (hemp : st.store = [])
    (now : Int) (key : Option KeyV) (value : Option Val) (ao : AddOptions) :
    (Cache.add st now key value ao).2 = st := by
  cases key with
  | none => rfl
  | some k =>
    cases hkl : (keyToString k).length == 0 with
    | true => simp [Cache.add, hkl]
    | false =>
      cases value with
      | none => simp [Cache.add, hkl]
      | some v =>
        have hlim : st.options.limit = some st.store.length := by
          rw [h0, hemp]
          rfl
        simp [Cache.add, hkl, hlim, hemp]

/-- C10: with `limit = 0`, every `add` with a valid key and value rejects —
    the eviction branch fires on the empty store (the limit equals the size
    0) and the lookup of a nonexistent oldest entry faults — and no sequence
    of `add` calls ever stores an entry: the cache is permanently unusable
    rather than unlimited. -/
theorem C10_limit_zero (st : CacheState) (h0 : st.options.limit = some 0)
    (hemp : st.store = []) (now : Int) (k : KeyV) (v : Val) (ao : AddOptions)
    (hk : ((keyToString k).length == 0) = false) :
    (Cache.add st now (some k) (some v) ao).1 = .error .fault
      ∧ ∀ ops : List (Int × Option KeyV × Option Val × AddOptions),
          (addSeq st ops).store = [] := by
  constructor
  · have hlim : st.options.limit = some st.store.length := by
      rw [h0, hemp]
      rfl
    simp [Cache.add, hk, hlim, hemp, mapHas, mapGet]
  · intro ops
    induction ops with
    | nil => exact hemp
    | cons op rest ih =>
      rw [addSeq, add_stuck st h0 hemp]
      exact ih

/-- Witness for `C10_limit_zero` at the concrete limit-0 cache. -/
theorem C10_witness :
    (Cache.add zeroLimitSt 0 (some (KeyV.str "k")) (some (Val.prim (.num 1))) ⟨none, none⟩).1
        = .error .fault
      ∧ (addSeq zeroLimitSt
          [(0, some (KeyV.str "k"), some (Val.prim (.num 1)), ⟨none, none⟩)]).store = [] := by
  have h := C10_limit_zero zeroLimitSt rfl rfl 0 (KeyV.str "k") (Val.prim (.num 1))
    ⟨none, none⟩ (by decide)
  exact ⟨h.1, h.2 _⟩

end Cachette
